import Mathlib

/-!
Shallow embedding of the rule synthesis and governance subsystem of the
V-System repository (v_system/core, v_system/rules, v_system/mee).

Modelling conventions:
* Python floats are modelled as exact numbers: rationals for the similarity /
  scoring intermediates (all arithmetic there is exact on the literals the
  code uses) and real numbers where math.exp enters (confidence scores).
* Python callables that may raise are modelled as functions into Except Unit.
* Python dicts are modelled as the lists of the keys the governed code reads;
  Python sets that are converted back to lists are modelled as lists
  deduplicated keeping the first occurrence (CPython's iteration order over a
  set is unspecified; every theorem below is insensitive to that order).
* The id(...) based term placeholders of the ILE module are modelled as fresh
  tokens numbered in preorder traversal (the code only relies on their
  distinctness, assuming no mod-1000 collision).
-/

/-- Lowercase a string, character by character (Python str.lower on ASCII rule ids). -/
def strLower (s : String) : String := ⟨s.data.map Char.toLower⟩

/-- Check whether the pattern is an initial segment of the list. -/
def listMatchAt : List Char → List Char → Bool
  | [], _ => true
  | _ :: _, [] => false
  | p :: ps, c :: cs => p == c && listMatchAt ps cs

/-- Substring test on character lists (Python `pat in hay`). -/
def strContainsL : List Char → List Char → Bool
  | [], pat => pat.isEmpty
  | c :: cs, pat => listMatchAt pat (c :: cs) || strContainsL cs pat

/-- Substring test on strings (Python `pat in hay`). -/
def strContains (hay pat : String) : Bool := strContainsL hay.data pat.data

/-- Python `t[0].isupper()`; the code never sees an empty term, we return false there. -/
def startsUpper (s : String) : Bool :=
  match s.data with
  | [] => false
  | c :: _ => c.isUpper

/-- Python `s[:n]`. -/
def strTake (s : String) (n : Nat) : String := ⟨s.data.take n⟩

/-- Helper for splitting on underscores, accumulating the current chunk reversed. -/
def splitUnderAux (cur : List Char) : List Char → List String
  | [] => [⟨cur.reverse⟩]
  | c :: cs => if c == '_' then ⟨cur.reverse⟩ :: splitUnderAux [] cs else splitUnderAux (c :: cur) cs

/-- Python `s.split('_')` (note: the split of an empty string is [""]). -/
def splitUnder (s : String) : List String := splitUnderAux [] s.data

/-- Deduplicate keeping first occurrences, with an accumulator of already seen elements. -/
def dedupFirstAux [DecidableEq α] (seen : List α) : List α → List α
  | [] => []
  | x :: xs => if x ∈ seen then dedupFirstAux seen xs else x :: dedupFirstAux (x :: seen) xs

/-- Deduplicate a list keeping the first occurrence of each element (canonical
order for Python's `list(set(...))`). -/
def dedupFirst [DecidableEq α] (l : List α) : List α := dedupFirstAux [] l

/-- Whether the list contains two equal elements. -/
def hasDupB [DecidableEq α] : List α → Bool
  | [] => false
  | x :: xs => xs.contains x || hasDupB xs

/-- Operator slot of a SymbolicExpression node: the constructors Var and Num
store a string or a number there (`v_system/core/symbolic_expr.py`). -/
inductive SAtom where
  | str (s : String)
  | num (n : Int)
deriving DecidableEq, Repr

/-- Python str(op) on the operator slot. -/
def SAtom.toStr : SAtom → String
  | .str s => s
  | .num n => toString n

/-- AST of `v_system/core/symbolic_expr.py`: an operator and an argument list. -/
inductive SymbolicExpression where
  | mk (op : SAtom) (args : List SymbolicExpression)

/-- Operator of an expression node. -/
def SymbolicExpression.op : SymbolicExpression → SAtom
  | .mk o _ => o

/-- Arguments of an expression node. -/
def SymbolicExpression.args : SymbolicExpression → List SymbolicExpression
  | .mk _ a => a

/-- Variable helper Var of symbolic_expr.py (renamed to avoid clashing with Mathlib). -/
def exprVar (name : String) : SymbolicExpression := .mk (.str name) []

/-- Numeric constant helper Num of symbolic_expr.py. -/
def exprNum (val : Int) : SymbolicExpression := .mk (.num val) []

/-- Addition helper Add of symbolic_expr.py. -/
def exprAdd (a b : SymbolicExpression) : SymbolicExpression := .mk (.str "+") [a, b]

/-- Multiplication helper Mul of symbolic_expr.py. -/
def exprMul (a b : SymbolicExpression) : SymbolicExpression := .mk (.str "*") [a, b]

/-- Context of `v_system/core/context.py`: domain, optional subdomain, and the
keys of the features dict (only the key set is ever read by the governor). -/
structure Context where
  domain : String
  subdomain : Option String := none
  features : List String := []
deriving DecidableEq, Repr

/-- Python truthiness of the optional subdomain (None and "" are falsy). -/
def truthyOpt : Option String → Bool
  | none => false
  | some s => !(s == "")

/-- Context.similarity from context.py: 0 across domains, 1 when the
subdomains agree, 1/2 when both carry (truthy) differing subdomains, else 7/10
(rational constants are written with mkRat so concrete runs reduce in the
kernel; mkRat a b is exactly the rational a/b). -/
def Context.similarity (a b : Context) : ℚ :=
  if a.domain ≠ b.domain then 0
  else if a.subdomain = b.subdomain then 1
  else if truthyOpt a.subdomain && truthyOpt b.subdomain then mkRat 1 2
  else mkRat 7 10

/-- Reference record of context.py (read-only collaborator data). -/
structure Reference where
  output : SymbolicExpression
  context : Context
  alignment : Context → ℚ
  operation_type : String
  bias_signature : String

/-- ContextBundle record of context.py. -/
structure ContextBundle where
  parallel_outputs : List SymbolicExpression
  parallel_contexts : List Context
  parallel_operations : List String
  original_input : SymbolicExpression
  transformation_history : List SymbolicExpression
  current_context : Context
  layer_position : Int
  column_position : Int

/-- Rule of `v_system/core/rule.py`. The condition and transform callables may
raise, which we model with Except; confidence is a float, modelled as a real. -/
structure Rule where
  id : String
  condition : SymbolicExpression → ContextBundle → List Reference → Except Unit Int
  transform : SymbolicExpression → Except Unit SymbolicExpression
  domain : Context
  priority : Int
  confidence : ℝ
  source : String := "hardcoded"
  application_count : Nat := 0
  success_count : Nat := 0

/-- Rule.is_applicable: invoke the condition, downgrading any raise to -1. -/
def Rule.is_applicable (r : Rule) (expr : SymbolicExpression)
    (cb : ContextBundle) (refs : List Reference) : Int :=
  match r.condition expr cb refs with
  | .ok v => v
  | .error _ => -1

/-- Rule.apply: count the application, invoke the transform; a raise leaves the
expression unchanged and does not count as a success. -/
def Rule.apply (r : Rule) (expr : SymbolicExpression) : SymbolicExpression × Rule :=
  let r1 : Rule := { r with application_count := r.application_count + 1 }
  match r.transform expr with
  | .ok result => (result, { r1 with success_count := r1.success_count + 1 })
  | .error _ => (expr, r1)

/-- Condition of core rule identity_add (x + 0 has op '+', two args, second arg op 0). -/
def identity_add_cond (expr : SymbolicExpression) (_ : ContextBundle) (_ : List Reference) :
    Except Unit Int :=
  if expr.op = SAtom.str "+" ∧ expr.args.length = 2 then
    match expr.args with
    | [_, b] => if b.op = SAtom.num 0 then .ok 1 else .ok 0
    | _ => .ok 0
  else .ok 0

/-- Transform of core rule identity_add: expr.args[0].copy() (copy is identity on
values; an empty argument list would raise IndexError). -/
def identity_add_trans (expr : SymbolicExpression) : Except Unit SymbolicExpression :=
  match expr.args with
  | a :: _ => .ok a
  | [] => .error ()

/-- Condition of core rule identity_add_rev (0 + x). -/
def identity_add_rev_cond (expr : SymbolicExpression) (_ : ContextBundle) (_ : List Reference) :
    Except Unit Int :=
  if expr.op = SAtom.str "+" ∧ expr.args.length = 2 then
    match expr.args with
    | [a, _] => if a.op = SAtom.num 0 then .ok 1 else .ok 0
    | _ => .ok 0
  else .ok 0

/-- Transform of core rule identity_add_rev: expr.args[1].copy(). -/
def identity_add_rev_trans (expr : SymbolicExpression) : Except Unit SymbolicExpression :=
  match expr.args with
  | _ :: b :: _ => .ok b
  | _ => .error ()

/-- Condition of core rule identity_mul (x * 1). -/
def identity_mul_cond (expr : SymbolicExpression) (_ : ContextBundle) (_ : List Reference) :
    Except Unit Int :=
  if expr.op = SAtom.str "*" ∧ expr.args.length = 2 then
    match expr.args with
    | [_, b] => if b.op = SAtom.num 1 then .ok 1 else .ok 0
    | _ => .ok 0
  else .ok 0

/-- Transform of core rule identity_mul: expr.args[0].copy(). -/
def identity_mul_trans (expr : SymbolicExpression) : Except Unit SymbolicExpression :=
  match expr.args with
  | a :: _ => .ok a
  | [] => .error ()

/-- Condition of core rule identity_mul_rev (1 * x). -/
def identity_mul_rev_cond (expr : SymbolicExpression) (_ : ContextBundle) (_ : List Reference) :
    Except Unit Int :=
  if expr.op = SAtom.str "*" ∧ expr.args.length = 2 then
    match expr.args with
    | [a, _] => if a.op = SAtom.num 1 then .ok 1 else .ok 0
    | _ => .ok 0
  else .ok 0

/-- Transform of core rule identity_mul_rev: expr.args[1].copy(). -/
def identity_mul_rev_trans (expr : SymbolicExpression) : Except Unit SymbolicExpression :=
  match expr.args with
  | _ :: b :: _ => .ok b
  | _ => .error ()

/-- Condition of core rule zero_mul (x * 0 or 0 * x). -/
def zero_mul_cond (expr : SymbolicExpression) (_ : ContextBundle) (_ : List Reference) :
    Except Unit Int :=
  if expr.op = SAtom.str "*" ∧ expr.args.length = 2 then
    match expr.args with
    | [a, b] => if a.op = SAtom.num 0 ∨ b.op = SAtom.num 0 then .ok 1 else .ok 0
    | _ => .ok 0
  else .ok 0

/-- Transform of core rule zero_mul: Num(0). -/
def zero_mul_trans (_ : SymbolicExpression) : Except Unit SymbolicExpression :=
  .ok (exprNum 0)

/-- Condition of core rule commutative_add: applies when str(a.op) > str(b.op). -/
def comm_add_cond (expr : SymbolicExpression) (_ : ContextBundle) (_ : List Reference) :
    Except Unit Int :=
  if expr.op = SAtom.str "+" ∧ expr.args.length = 2 then
    match expr.args with
    | [a, b] => if SAtom.toStr b.op < SAtom.toStr a.op then .ok 1 else .ok 0
    | _ => .ok 0
  else .ok 0

/-- Transform of core rule commutative_add: Add(args[1], args[0]). -/
def comm_add_trans (expr : SymbolicExpression) : Except Unit SymbolicExpression :=
  match expr.args with
  | a :: b :: _ => .ok (exprAdd b a)
  | _ => .error ()

/-- Condition of core rule commutative_mul. -/
def comm_mul_cond (expr : SymbolicExpression) (_ : ContextBundle) (_ : List Reference) :
    Except Unit Int :=
  if expr.op = SAtom.str "*" ∧ expr.args.length = 2 then
    match expr.args with
    | [a, b] => if SAtom.toStr b.op < SAtom.toStr a.op then .ok 1 else .ok 0
    | _ => .ok 0
  else .ok 0

/-- Transform of core rule commutative_mul: Mul(args[1], args[0]). -/
def comm_mul_trans (expr : SymbolicExpression) : Except Unit SymbolicExpression :=
  match expr.args with
  | a :: b :: _ => .ok (exprMul b a)
  | _ => .error ()

/-- Shared (math, algebra) context of core_rules.py. -/
def math_algebra : Context := { domain := "math", subdomain := some "algebra" }

/-- create_core_rules of `v_system/rules/core_rules.py`. -/
def create_core_rules : List Rule :=
  [ { id := "identity_add", condition := identity_add_cond, transform := identity_add_trans,
      domain := math_algebra, priority := 10, confidence := 1, source := "core" },
    { id := "identity_add_rev", condition := identity_add_rev_cond, transform := identity_add_rev_trans,
      domain := math_algebra, priority := 10, confidence := 1, source := "core" },
    { id := "identity_mul", condition := identity_mul_cond, transform := identity_mul_trans,
      domain := math_algebra, priority := 9, confidence := 1, source := "core" },
    { id := "identity_mul_rev", condition := identity_mul_rev_cond, transform := identity_mul_rev_trans,
      domain := math_algebra, priority := 9, confidence := 1, source := "core" },
    { id := "zero_mul", condition := zero_mul_cond, transform := zero_mul_trans,
      domain := math_algebra, priority := 8, confidence := 1, source := "core" },
    { id := "commutative_add", condition := comm_add_cond, transform := comm_add_trans,
      domain := math_algebra, priority := 7, confidence := 1, source := "core" },
    { id := "commutative_mul", condition := comm_mul_cond, transform := comm_mul_trans,
      domain := math_algebra, priority := 7, confidence := 1, source := "core" } ]

/-- ConflictType enum of `v_system/mee/contradiction.py`. -/
inductive ConflictType where
  | DIRECT_NEGATION
  | CONTEXT_OVERLAP
  | SPECIAL_GENERAL
  | NONE
deriving DecidableEq, Repr

/-- ConflictResult record of contradiction.py (the `exists` flag is spelled
conflict_exists here because `exists` reads poorly in Lean). -/
structure ConflictResult where
  conflict_exists : Bool
  type : ConflictType
  description : String := ""
  overlap_score : ℚ := 0
deriving DecidableEq, Repr

/-- Inverse-operation id pair table of HeuristicContradictionDetector. -/
def inverse_pairs : List (String × String) :=
  [("expand", "factor"), ("simplify", "complicate"),
   ("differentiate", "integrate"), ("add", "subtract"),
   ("multiply", "divide")]

/-- HeuristicContradictionDetector._are_inverse_operations. -/
def are_inverse_operations (id1 id2 : String) : Bool :=
  let id1_lower := strLower id1
  let id2_lower := strLower id2
  inverse_pairs.any fun p =>
    (strContains id1_lower p.1 && strContains id2_lower p.2) ||
    (strContains id1_lower p.2 && strContains id2_lower p.1)

/-- HeuristicContradictionDetector._contexts_overlap (similarity > 0.5). -/
def contexts_overlap (ctx1 ctx2 : Context) : Bool :=
  decide (ctx1.similarity ctx2 > mkRat 1 2)

/-- HeuristicContradictionDetector._have_priority_conflict. -/
def have_priority_conflict (rule1 rule2 : Rule) : Bool :=
  decide (rule1.priority = rule2.priority ∧ rule1.id ≠ rule2.id)

/-- HeuristicContradictionDetector._is_special_case, in the source's argument
order: "specific" in id1 and "general" in id2. -/
def is_special_case (id1 id2 : String) : Bool :=
  strContains (strLower id1) "specific" && strContains (strLower id2) "general"

/-- HeuristicContradictionDetector.detect: the three checks in source order. -/
def detect (rule1 rule2 : Rule) : ConflictResult :=
  if are_inverse_operations rule1.id rule2.id && contexts_overlap rule1.domain rule2.domain then
    { conflict_exists := true, type := .DIRECT_NEGATION,
      description := "Rules " ++ rule1.id ++ " and " ++ rule2.id ++ " are inverse operations" }
  else
    let context_similarity := rule1.domain.similarity rule2.domain
    if decide (context_similarity > mkRat 7 10) && have_priority_conflict rule1 rule2 then
      { conflict_exists := true, type := .CONTEXT_OVERLAP,
        description := "Rules conflict in overlapping context",
        overlap_score := context_similarity }
    else if is_special_case rule1.id rule2.id then
      { conflict_exists := true, type := .SPECIAL_GENERAL,
        description := rule1.id ++ " may be special case of " ++ rule2.id }
    else
      { conflict_exists := false, type := .NONE }

/-- ProvabilityEngine._get_rule_type: first matching keyword, else "general". -/
def get_rule_type (rule_id : String) : String :=
  let id_lower := strLower rule_id
  match ["commutative", "associative", "distributive", "identity", "inverse", "zero"].find?
      (fun t => strContains id_lower t) with
  | some t => t
  | none => "general"

/-- ProvabilityEngine._is_derivable: distributive needs commutative and associative. -/
def is_derivable (candidate : Rule) (existing : List Rule) : Bool :=
  let candidate_type := get_rule_type candidate.id
  let existing_types := existing.map fun r => get_rule_type r.id
  if candidate_type = "distributive" then
    existing_types.contains "commutative" && existing_types.contains "associative"
  else false

/-- ProvabilityEngine._is_consistent: no DIRECT_NEGATION conflict with any existing rule. -/
def is_consistent (candidate : Rule) (existing : List Rule) : Bool :=
  existing.all fun r =>
    !((detect candidate r).conflict_exists &&
      decide ((detect candidate r).type = ConflictType.DIRECT_NEGATION))

/-- ProvabilityEngine.analyze. -/
def analyze (candidate : Rule) (existing_rules : List Rule) : String :=
  if is_derivable candidate existing_rules then "provable"
  else if is_consistent candidate existing_rules then "heuristic"
  else "unprovable"

/-- ConfidenceScorer._score_provability lookup table (default 0.5). -/
def score_provability (provability : String) : ℚ :=
  if provability = "provable" then 1
  else if provability = "heuristic" then 7/10
  else if provability = "unprovable" then 1/5
  else if provability = "unknown" then 1/2
  else 1/2

/-- ConfidenceScorer._score_consistency: counts DIRECT_NEGATION conflicts and
SPECIAL_GENERAL supports against the existing rules. -/
def score_consistency (rule : Rule) (existing_rules : List Rule) : ℚ :=
  match existing_rules with
  | [] => 1/2
  | _ =>
    let conflicts := (existing_rules.filter fun r =>
      (detect rule r).conflict_exists &&
        decide ((detect rule r).type = ConflictType.DIRECT_NEGATION)).length
    let supports := (existing_rules.filter fun r =>
      (detect rule r).conflict_exists &&
        decide ((detect rule r).type = ConflictType.SPECIAL_GENERAL)).length
    let total := existing_rules.length
    if conflicts > 0 then (3/10) * (1 - (conflicts : ℚ) / (total : ℚ))
    else 1/2 + (1/2) * (if total > 0 then (supports : ℚ) / (total : ℚ) else 0)

/-- ConfidenceScorer._are_similar: domain similarity at least 0.5 and id-token
overlap ratio above 0.3 (id words are Python sets: deduplicated). -/
def are_similar (rule1 rule2 : Rule) : Bool :=
  if rule1.domain.similarity rule2.domain < mkRat 1 2 then false
  else
    let id1_words := dedupFirst (splitUnder (strLower rule1.id))
    let id2_words := dedupFirst (splitUnder (strLower rule2.id))
    if id1_words.isEmpty || id2_words.isEmpty then false
    else
      let overlap := (id1_words.filter fun w => id2_words.contains w).length
      let similarity : ℚ := mkRat (overlap : Int) (max id1_words.length id2_words.length)
      decide (similarity > mkRat 3 10)

/-- ConfidenceScorer._score_support: 0.3 with no existing rules, 0.4 when no
existing rule is similar, else the 0.4/0.4/0.2 blend capped at 1. -/
noncomputable def score_support (rule : Rule) (existing_rules : List Rule) : ℝ :=
  match existing_rules with
  | [] => 3/10
  | _ =>
    let similar_rules := existing_rules.filter fun r => are_similar rule r
    if similar_rules.isEmpty then 2/5
    else
      let count_support : ℚ := min 1 ((similar_rules.length : ℚ) / 5)
      let avg_confidence : ℝ :=
        (similar_rules.map fun r => r.confidence).sum / (similar_rules.length : ℝ)
      let same_domain := similar_rules.filter fun r => r.domain.domain = rule.domain.domain
      let domain_support : ℚ :=
        if similar_rules.isEmpty then 0
        else (same_domain.length : ℚ) / (similar_rules.length : ℚ)
      min 1 ((count_support : ℝ) * (2/5) + avg_confidence * (2/5) + (domain_support : ℝ) * (1/5))

/-- ConfidenceScorer._score_performance over the rule_performance table,
modelled as an association list (rule id, success count, total count). -/
def score_performance (perf : List (String × Nat × Nat)) (rule : Rule) : ℚ :=
  match perf.find? fun e => e.1 == rule.id with
  | none => 1/2
  | some (_, succ, total) =>
    if total = 0 then 1/2
    else
      let success_rate : ℚ := (succ : ℚ) / (total : ℚ)
      let sample_confidence : ℚ := min 1 ((total : ℚ) / 10)
      success_rate * sample_confidence + (1/2) * (1 - sample_confidence)

/-- ConfidenceScorer._score_complexity: exp(-2 * avg(priority/10,
min(1, features/5), min(1, idLength/50))). -/
noncomputable def score_complexity (rule : Rule) : ℝ :=
  let priority_complexity : ℚ := (rule.priority : ℚ) / 10
  let feature_complexity : ℚ := min 1 ((rule.domain.features.length : ℚ) / 5)
  let id_complexity : ℚ := min 1 ((rule.id.length : ℚ) / 50)
  let avg_complexity : ℚ := (priority_complexity + feature_complexity + id_complexity) / 3
  Real.exp (-(avg_complexity : ℝ) * 2)

/-- ConfidenceScorer._apply_source_adjustment multiplier table (default 1.0). -/
def source_adjustment (source : String) : ℚ :=
  if source = "derived" then 11/10
  else if source = "learned" then 19/20
  else if source = "empirical" then 9/10
  else if source = "pattern_recognition" then 1
  else if source = "symbolic_regression" then 19/20
  else if source = "synthesized_pattern" then 1
  else if source = "synthesized_inductive" then 9/10
  else if source = "synthesized_analogy" then 17/20
  else if source = "simple_extraction" then 4/5
  else if source = "inverse_entailment" then 23/20
  else if source = "manual" then 6/5
  else if source = "core" then 13/10
  else 1

/-- Result record of ConfidenceScorer.score_rule (the component-score dict is
flattened into fields). -/
structure ScoreResult where
  final_score : ℝ
  base_score : ℝ
  provability_boost : ℝ
  consistency_boost : ℝ
  provability_component : ℚ
  consistency_component : ℚ
  support_component : ℝ
  performance_component : ℚ
  complexity_component : ℝ

/-- ConfidenceScorer.score_rule: the weighted component sum (weights .3, .25,
.2, .15, .1), source adjustment, and the clamp into the unit interval.  The
scoring_history append and the weights echo in the result dict are scorer-side
bookkeeping never read back by the governed code and are not modelled. -/
noncomputable def score_rule (perf : List (String × Nat × Nat)) (rule : Rule)
    (existing_rules : List Rule) (provability : String) : ScoreResult :=
  let provS := score_provability provability
  let consS := score_consistency rule existing_rules
  let suppS := score_support rule existing_rules
  let perfS := score_performance perf rule
  let compS := score_complexity rule
  let weighted : ℝ := (provS : ℝ) * (3/10) + (consS : ℝ) * (1/4) + suppS * (1/5)
      + (perfS : ℝ) * (3/20) + compS * (1/10)
  let adjusted : ℝ := weighted * ((source_adjustment rule.source : ℚ) : ℝ)
  { final_score := max 0 (min 1 adjusted)
    base_score := (provS : ℝ)
    provability_boost := (provS : ℝ) - 1/2
    consistency_boost := (consS : ℝ) * (1/4)
    provability_component := provS
    consistency_component := consS
    support_component := suppS
    performance_component := perfS
    complexity_component := compS }

/-- Meta-pattern record of the engine ((type, domain) observation counter; the
discovered_at wall-clock stamp is not modelled). -/
structure MetaPattern where
  type : String
  domain : String
  count : Nat
deriving DecidableEq, Repr

/-- Mutable state of MetaEvolutionEngine that process_candidate_rule touches:
the global rule set, meta-pattern records, counters, and the confidence
scorer's performance table. -/
structure EngineState where
  R_global : List Rule
  meta_patterns : List MetaPattern := []
  rules_processed : Nat := 0
  rules_accepted : Nat := 0
  rules_rejected : Nat := 0
  heuristic_failures : Nat := 0
  patterns_discovered : Nat := 0
  rule_performance : List (String × Nat × Nat) := []

/-- Engine state right after MetaEvolutionEngine.__init__. -/
def initial_engine_state : EngineState := { R_global := create_core_rules }

/-- Status of MetaEvolutionEngine._resolve_contradictions. -/
inductive ResolveStatus where
  | reject (reason : String)
  | replaced (replaced_id : String)
  | contextualized
  | no_conflict
deriving DecidableEq, Repr

/-- MetaEvolutionEngine._resolve_contradictions: walk the global rule set in
order; the first DIRECT_NEGATION is terminal (replace in place if the
candidate's confidence is strictly higher, else reject), the first
CONTEXT_OVERLAP narrows the candidate's domain and stops; SPECIAL_GENERAL
conflicts are only logged. Returns the status, the (possibly re-domained)
candidate, and the (possibly shortened) rule list. -/
noncomputable def resolve_contradictions (candidate : Rule) :
    List Rule → ResolveStatus × Rule × List Rule
  | [] => (.no_conflict, candidate, [])
  | existing :: rest =>
    let conflict := detect candidate existing
    if !conflict.conflict_exists then
      let r := resolve_contradictions candidate rest
      (r.1, r.2.1, existing :: r.2.2)
    else
      match conflict.type with
      | .DIRECT_NEGATION =>
        if candidate.confidence > existing.confidence then
          (.replaced existing.id, candidate, rest)
        else
          (.reject ("contradicts " ++ existing.id), candidate, existing :: rest)
      | .CONTEXT_OVERLAP =>
        (.contextualized,
         { candidate with domain :=
            { domain := candidate.domain.domain,
              subdomain := some ("restricted_" ++ strTake candidate.id 10),
              features :=
                if candidate.domain.features.contains "restricted" then candidate.domain.features
                else candidate.domain.features ++ ["restricted"] } },
         existing :: rest)
      | _ =>
        let r := resolve_contradictions candidate rest
        (r.1, r.2.1, existing :: r.2.2)

/-- MetaEvolutionEngine._classify_rule_type keyword table (insertion order). -/
def classify_rule_type (rule : Rule) : String :=
  let id_lower := strLower rule.id
  let patterns : List (String × String) :=
    [("ile", "inverse_entailment"), ("pattern", "recognized_pattern"),
     ("symbolic", "symbolic_regression"), ("synth", "synthesized"),
     ("commutative", "commutative_pattern"), ("associative", "associative_pattern"),
     ("distributive", "distributive_pattern"), ("identity", "identity_pattern")]
  match patterns.find? (fun p => strContains id_lower p.1) with
  | some p => p.2
  | none => "general_transform"

/-- Return record of MetaEvolutionEngine._extract_meta_patterns. -/
structure MetaResult where
  new_pattern : Bool
  pattern_type : String
  pattern_count : Nat
deriving DecidableEq, Repr

/-- Increment the count of the first meta-pattern matching (type, domain);
none when no record matches. -/
def extract_meta_aux (rule_type dom : String) :
    List MetaPattern → Option (List MetaPattern × Nat)
  | [] => none
  | p :: rest =>
    if p.type = rule_type ∧ p.domain = dom then
      some ({ p with count := p.count + 1 } :: rest, p.count + 1)
    else
      match extract_meta_aux rule_type dom rest with
      | some (rest2, c) => some (p :: rest2, c)
      | none => none

/-- MetaEvolutionEngine._extract_meta_patterns: bump the first matching
(type, domain) record or lazily create a fresh one. -/
def extract_meta_patterns (rule : Rule) (meta_patterns : List MetaPattern) :
    List MetaPattern × MetaResult :=
  let rule_type := classify_rule_type rule
  match extract_meta_aux rule_type rule.domain.domain meta_patterns with
  | some (pats2, c) =>
    (pats2, { new_pattern := false, pattern_type := rule_type, pattern_count := c })
  | none =>
    (meta_patterns ++ [{ type := rule_type, domain := rule.domain.domain, count := 1 }],
     { new_pattern := true, pattern_type := rule_type, pattern_count := 1 })

/-- Structured result dict of MetaEvolutionEngine.process_candidate_rule (keys
that a branch does not set are none). -/
structure ProcResult where
  status : String
  reason : Option String := none
  rule_id : Option String := none
  provability : Option String := none
  confidence : Option ℝ := none
  confidence_analysis : Option ScoreResult := none
  replaced_id : Option String := none
  new_pattern : Option Bool := none

/-- MetaEvolutionEngine.process_candidate_rule: contradiction phase (an early
"reject" returns the resolution record itself, with status "reject");
provability phase ("unprovable" is a terminal "rejected" — note the rule list
keeps any removal the replacement branch already performed); confidence
scoring (overwriting the candidate's confidence and source); meta-pattern
extraction; then the commit appending the candidate to the global rule set. -/
noncomputable def process_candidate_rule (st : EngineState) (candidate : Rule) :
    ProcResult × EngineState :=
  let st0 := { st with rules_processed := st.rules_processed + 1 }
  let r := resolve_contradictions candidate st0.R_global
  match r.1 with
  | .reject reason =>
    ({ status := "reject", reason := some reason },
     { st0 with R_global := r.2.2, rules_rejected := st0.rules_rejected + 1,
                heuristic_failures := st0.heuristic_failures + 1 })
  | _ =>
    let cand1 := r.2.1
    let rules1 := r.2.2
    let provability := analyze cand1 rules1
    if provability = "unprovable" then
      ({ status := "rejected", reason := some "unprovable", rule_id := some cand1.id },
       { st0 with R_global := rules1, rules_rejected := st0.rules_rejected + 1,
                  heuristic_failures := st0.heuristic_failures + 1 })
    else
      let confidence_analysis := score_rule st0.rule_performance cand1 rules1 provability
      let cand2 := { cand1 with confidence := confidence_analysis.final_score,
                                source := if provability = "provable" then "derived" else "empirical" }
      let mp := extract_meta_patterns cand2 st0.meta_patterns
      ({ status := "accepted", provability := some provability,
         confidence := some cand2.confidence,
         confidence_analysis := some confidence_analysis,
         rule_id := some cand2.id, new_pattern := some mp.2.new_pattern },
       { st0 with meta_patterns := mp.1,
                  patterns_discovered :=
                    st0.patterns_discovered + (if mp.2.new_pattern then 1 else 0),
                  R_global := rules1 ++ [cand2],
                  rules_accepted := st0.rules_accepted + 1 })

/-- First-order literal of `v_system/mee/ile_module.py`. -/
structure Literal where
  predicate : String
  terms : List String
  negated : Bool := false
deriving DecidableEq, Repr

/-- Clause of ile_module.py: a head literal and an ordered body. -/
structure Clause where
  head : Literal
  body : List Literal := []
deriving DecidableEq, Repr

/-- Training-example mapping as read by the ILE module: optional ground-fact
fields, optional input/output expressions. -/
structure FactRec where
  predicate : Option String := none
  terms : List String := []
  negated : Bool := false
  input : Option SymbolicExpression := none
  output : Option SymbolicExpression := none

/-- A full example additionally carries an optional facts list (nested fact
records never recurse further in the code, so one level is modelled). -/
structure Example extends FactRec where
  facts : List FactRec := []

/-- InverseEntailmentEngine._example_to_literal. -/
def example_to_literal (ex : FactRec) (is_head : Bool) : Option Literal :=
  match ex.predicate with
  | some p => some { predicate := p, terms := ex.terms, negated := ex.negated }
  | none =>
    let e? := if is_head ∧ ex.output.isSome then ex.output
              else if ex.input.isSome then ex.input
              else none
    match e? with
    | none => none
    | some (.mk op args) =>
      some { predicate := SAtom.toStr op, terms := args.map fun a => SAtom.toStr a.op }

mutual
/-- Number of nodes of an expression (used to assign preorder token indices). -/
def exprSize : SymbolicExpression → Nat
  | .mk _ args => 1 + exprSizeList args
def exprSizeList : List SymbolicExpression → Nat
  | [] => 0
  | e :: es => exprSize e + exprSizeList es
end

/-- Placeholder tokens for the arguments of a node, numbered in preorder
(modelling the id(arg) % 1000 placeholders of _expression_to_literals). -/
def argTokens : List SymbolicExpression → Nat → List String
  | [], _ => []
  | a :: rest, idx => ("term_" ++ toString idx) :: argTokens rest (idx + exprSize a)

mutual
/-- InverseEntailmentEngine._expression_to_literals: one literal per node with
arguments, terms being per-node placeholder tokens. -/
def exprLits : SymbolicExpression → Nat → List Literal
  | .mk op args, idx =>
    let terms := argTokens args (idx + 1)
    (if terms.isEmpty then [] else [{ predicate := SAtom.toStr op, terms := terms }])
      ++ argLits args (idx + 1)
def argLits : List SymbolicExpression → Nat → List Literal
  | [], _ => []
  | a :: rest, idx => exprLits a idx ++ argLits rest (idx + exprSize a)
end

/-- InverseEntailmentEngine._extract_facts_from_example: literals of the facts
list plus the flattening of the input expression (a Python set; kept in first
encounter order). -/
def extract_facts_from_example (ex : Example) : List Literal :=
  let fact_lits := ex.facts.filterMap fun f => example_to_literal f false
  let input_lits := match ex.input with
    | some e => exprLits e 0
    | none => []
  dedupFirst (fact_lits ++ input_lits)

/-- InverseEntailmentEngine._apply_clause: the saturation derivation step is a
stub returning no new facts. -/
def apply_clause (_ : Clause) (_ : List Literal) : List Literal := []

/-- Saturation loop of _construct_bottom_clause: up to 3 rounds of applying
background clauses; with the stub derivation it never adds a literal. -/
def saturate (background : List Clause) (body new_facts : List Literal) : Nat → List Literal
  | 0 => body
  | fuel + 1 =>
    if new_facts.isEmpty then body
    else
      let derived := dedupFirst (background.flatMap fun c => apply_clause c body)
      let nf := derived.filter fun f => !body.contains f
      saturate background (body ++ nf) nf fuel

/-- Fresh-variable lookup of _variabilize: the state is the constant-to-
variable table plus the variable counter. -/
def get_variable (st : List (String × String) × Nat) (t : String) :
    String × (List (String × String) × Nat) :=
  match st.1.find? fun p => p.1 == t with
  | some p => (p.2, st)
  | none =>
    let v := "X" ++ toString st.2
    (v, ((t, v) :: st.1, st.2 + 1))

/-- Variabilize a term list left to right (uppercase-initial terms stay). -/
def varTermsAux (st : List (String × String) × Nat) :
    List String → List String × (List (String × String) × Nat)
  | [] => ([], st)
  | t :: rest =>
    let r1 := if startsUpper t then (t, st) else get_variable st t
    let r2 := varTermsAux r1.2 rest
    (r1.1 :: r2.1, r2.2)

/-- Variabilize the body literals in order, threading the table. -/
def varLitsAux (st : List (String × String) × Nat) :
    List Literal → List Literal × (List (String × String) × Nat)
  | [] => ([], st)
  | l :: rest =>
    let r1 := varTermsAux st l.terms
    let r2 := varLitsAux r1.2 rest
    ({ l with terms := r1.1 } :: r2.1, r2.2)

/-- InverseEntailmentEngine._variabilize: head terms first, then the body. -/
def variabilize (head : Literal) (body : List Literal) : Literal × List Literal :=
  let r1 := varTermsAux ([], 0) head.terms
  let r2 := varLitsAux r1.2 body
  ({ head with terms := r1.1 }, r2.1)

/-- Variables of a literal (uppercase-initial terms), as a deduplicated list. -/
def lit_variables (l : Literal) : List String :=
  dedupFirst (l.terms.filter fun t => startsUpper t)

/-- Stable descending insertion: x goes after every earlier element with an
equal or larger key (matches CPython's stable sort with reverse=True). -/
def insertDescK [LinearOrder κ] (x : κ × α) : List (κ × α) → List (κ × α)
  | [] => [x]
  | y :: ys => if x.1 ≤ y.1 then y :: insertDescK x ys else x :: y :: ys

/-- Stable sort, descending by the key component. -/
def sortDescK [LinearOrder κ] (l : List (κ × α)) : List (κ × α) :=
  l.foldl (fun acc x => insertDescK x acc) []

/-- InverseEntailmentEngine._filter_relevant_literals: keep the
max_clause_length (4) body literals sharing the most variables with the head. -/
def filter_relevant_literals (head : Literal) (body : List Literal) : List Literal :=
  let head_vars := lit_variables head
  let scored := body.map fun lit =>
    (((lit_variables lit).filter fun v => head_vars.contains v).length, lit)
  ((sortDescK scored).take 4).map fun p => p.2

/-- InverseEntailmentEngine._construct_bottom_clause. -/
def construct_bottom_clause (ex : Example) (background : List Clause) : Option Clause :=
  match example_to_literal ex.toFactRec true with
  | none => none
  | some head =>
    let example_facts := extract_facts_from_example ex
    let body_literals := saturate background example_facts example_facts 3
    let v := variabilize head body_literals
    let body_var := if v.2.length > 4 then filter_relevant_literals v.1 v.2 else v.2
    some { head := v.1, body := body_var }

/-- InverseEntailmentEngine._covers_example: coarse head-predicate equality. -/
def covers_example (c : Clause) (ex : Example) (_ : List Clause) : Bool :=
  match example_to_literal ex.toFactRec true with
  | none => false
  | some l => c.head.predicate == l.predicate

/-- InverseEntailmentEngine._count_covered. -/
def count_covered (c : Clause) (examples : List Example) (background : List Clause) : Nat :=
  (examples.filter fun ex => covers_example c ex background).length

/-- InverseEntailmentEngine._evaluate_clause: the compression score
positiveCovered - negativeCovered - bodyLength - 1 (an exact integer). -/
def evaluate_clause (c : Clause) (positive negative : List Example)
    (background : List Clause) : Int :=
  (count_covered c positive background : Int) - (count_covered c negative background : Int)
    - (c.body.length : Int) - 1

/-- InverseEntailmentEngine._refine_clause: drop one body literal per child. -/
def refine_clause (c : Clause) : List Clause :=
  (List.range c.body.length).map fun i => { head := c.head, body := c.body.eraseIdx i }

/-- Final answer of the search: the best clause if its score is positive. -/
def search_result : Option (Int × Clause) → Option Clause
  | some (s, c) => if s > 0 then some c else none
  | none => none

/-- Whether the tracked best score is at most 0 (an empty tracker is -inf). -/
def best_le_zero : Option (Int × Clause) → Bool
  | some (s, _) => decide (s ≤ 0)
  | none => true

/-- Best-clause update: strictly better scores win, the first clause keeps ties. -/
def update_best (best : Option (Int × Clause)) (s : Int) (c : Clause) : Option (Int × Clause) :=
  match best with
  | none => some (s, c)
  | some (bs, bc) => if s > bs then some (s, c) else some (bs, bc)

/-- Fold update_best over a scored beam in evaluation order. -/
def fold_best (best : Option (Int × Clause)) (scored : List (Int × Clause)) :
    Option (Int × Clause) :=
  scored.foldl (fun b p => update_best b p.1 p.2) best

/-- Beam construction of one _search_hypothesis_space pass: sort the scored
beam descending (stable), keep the top beam_width = 10, refine each survivor,
deduplicate (list(set(...))), and drop refinements over max_clause_length = 4. -/
def next_beam_of (scored : List (Int × Clause)) : List Clause :=
  ((dedupFirst (((sortDescK scored).take 10).flatMap fun p => refine_clause p.2)).filter
    fun c => c.body.length ≤ 4)

/-- The while loop of _search_hypothesis_space.  Returns the number of
clauses_evaluated increments performed and either the returned clause option
or the TypeError CPython raises when scored_beam.sort compares the Clause
components of tied tuples (Clause defines no ordering; any beam of two or
more clauses shares one head and one body length, hence one score, so the
first sort comparison already hits the tie).  The fuel only bounds the
recursion; it is chosen so it never runs out (explored grows every pass). -/
def search_loop (positive negative : List Example) (background : List Clause) :
    Nat → List Clause → Option (Int × Clause) → Nat → Nat × Except Unit (Option Clause)
  | 0, _, best, _ => (0, .ok (search_result best))
  | fuel + 1, beam, best, explored =>
    if beam.isEmpty || explored ≥ 1000 then (0, .ok (search_result best))
    else
      let scored := beam.map fun c => (evaluate_clause c positive negative background, c)
      let best2 := fold_best best scored
      let explored2 := explored + beam.length
      if 2 ≤ beam.length ∧ hasDupB (scored.map fun p => p.1) then
        (beam.length, .error ())
      else if explored2 > 100 ∧ best_le_zero best2 then
        (beam.length, .ok (search_result best2))
      else
        let r := search_loop positive negative background fuel (next_beam_of scored)
          best2 explored2
        (beam.length + r.1, r.2)

/-- InverseEntailmentEngine._search_hypothesis_space entry point. -/
def search_hypothesis_space (bottom : Clause) (positive negative : List Example)
    (background : List Clause) : Nat × Except Unit (Option Clause) :=
  search_loop positive negative background 1001 [bottom] none 0

/-- InverseEntailmentEngine.learn_clause.  The pair is (number of
clauses_evaluated increments, outcome); the outcome is an Except because the
search can raise (see search_loop).  The bottom-clause counter and the
post-search re-evaluation of the returned hypothesis (done only for the log
line, without touching clauses_evaluated) are not modelled. -/
def learn_clause (positive_examples negative_examples : List Example)
    (background : List Clause) : Nat × Except Unit (Option Clause) :=
  match positive_examples with
  | [] => (0, .ok none)
  | seed :: _ =>
    match construct_bottom_clause seed background with
    | none => (0, .ok none)
    | some bottom =>
      search_hypothesis_space bottom positive_examples negative_examples background

/-- Trivial condition callable used by concrete test rules (never raises). -/
def trivial_cond : SymbolicExpression → ContextBundle → List Reference → Except Unit Int :=
  fun _ _ _ => .ok 0

/-- Trivial transform callable used by concrete test rules (never raises). -/
def trivial_trans : SymbolicExpression → Except Unit SymbolicExpression :=
  fun e => .ok e

/-- Concrete rule whose id contains "subtract", in the (math, algebra) domain. -/
def rsub_a : Rule :=
  { id := "r_subtract_a", condition := trivial_cond, transform := trivial_trans,
    domain := math_algebra, priority := 5, confidence := 0, source := "test" }

/-- Second concrete rule whose id contains "subtract". -/
def rsub_b : Rule :=
  { id := "r_subtract_b", condition := trivial_cond, transform := trivial_trans,
    domain := math_algebra, priority := 6, confidence := 0, source := "test" }

/-- Concrete candidate whose id contains "add": it direct-negates both rules above. -/
def cand_add : Rule :=
  { id := "add_x", condition := trivial_cond, transform := trivial_trans,
    domain := math_algebra, priority := 3, confidence := 1, source := "test" }

/-- Concrete candidate whose id contains "add" but whose confidence is not
strictly higher than the conflicting rule's. -/
def cand_add_low : Rule :=
  { id := "add_y", condition := trivial_cond, transform := trivial_trans,
    domain := math_algebra, priority := 3, confidence := 0, source := "test" }

/-- Engine state holding exactly the two subtract rules. -/
def engine_state_two_subtract : EngineState := { R_global := [rsub_a, rsub_b] }

/-- Engine state holding just one subtract rule. -/
def engine_state_one_subtract : EngineState := { R_global := [rsub_a] }

/-- Candidate with the same id as core rule identity_add but a fresh priority. -/
def cand_dup : Rule :=
  { id := "identity_add", condition := trivial_cond, transform := trivial_trans,
    domain := math_algebra, priority := 3, confidence := 1, source := "test" }

/-- Candidate with an id different from every core rule id. -/
def cand_fresh : Rule :=
  { id := "brand_new_rule", condition := trivial_cond, transform := trivial_trans,
    domain := math_algebra, priority := 3, confidence := 1, source := "test" }

/-- Existing rule for the contextualization scenario. -/
def r_foo : Rule :=
  { id := "foo_bar", condition := trivial_cond, transform := trivial_trans,
    domain := math_algebra, priority := 5, confidence := 1, source := "test" }

/-- Candidate overlapping r_foo's context at the same priority. -/
def cand_overlap : Rule :=
  { id := "baz_qux", condition := trivial_cond, transform := trivial_trans,
    domain := math_algebra, priority := 5, confidence := 1, source := "test" }

/-- Engine state holding just r_foo. -/
def engine_state_foo : EngineState := { R_global := [r_foo] }

/-- Rule with no similar companion in the support scenarios. -/
def r_alpha : Rule :=
  { id := "alpha_one", condition := trivial_cond, transform := trivial_trans,
    domain := math_algebra, priority := 5, confidence := 1, source := "test" }

/-- Rule in a different domain, hence not similar to r_alpha. -/
def r_beta : Rule :=
  { id := "beta_two_x", condition := trivial_cond, transform := trivial_trans,
    domain := { domain := "physics" }, priority := 5, confidence := 1, source := "test" }

/-- Rule whose id contains "general" (first argument in the reversed scenario). -/
def r_gen : Rule :=
  { id := "general_a", condition := trivial_cond, transform := trivial_trans,
    domain := { domain := "math" }, priority := 5, confidence := 1, source := "test" }

/-- Rule whose id contains "specific", in a different domain. -/
def r_spec : Rule :=
  { id := "specific_b", condition := trivial_cond, transform := trivial_trans,
    domain := { domain := "logic" }, priority := 5, confidence := 1, source := "test" }

/-- Rule whose condition and transform callables always raise. -/
def failing_rule : Rule :=
  { id := "bad_callables", condition := fun _ _ _ => .error (),
    transform := fun _ => .error (),
    domain := { domain := "math" }, priority := 1, confidence := 1, source := "test" }

/-- Concrete expression x for exercising the invocation boundary. -/
def expr_x : SymbolicExpression := exprVar "x"

/-- Minimal concrete context bundle. -/
def bundle_x : ContextBundle :=
  { parallel_outputs := [], parallel_contexts := [], parallel_operations := [],
    original_input := expr_x, transformation_history := [],
    current_context := { domain := "math" }, layer_position := 1, column_position := 0 }

/-- Concrete input expression (a + b) * c whose bottom clause has two body literals. -/
def exC5_input : SymbolicExpression :=
  exprMul (exprAdd (exprVar "a") (exprVar "b")) (exprVar "c")

/-- Positive example whose input and output are (a + b) * c. -/
def exC5 : Example := { input := some exC5_input, output := some exC5_input }

/-- Bound function for the search-evaluation count: fBound n dominates the
number of evaluations a singleton beam of body length n can still trigger. -/
def fBound : Nat → Nat
  | 0 => 1
  | n + 1 => (n + 1) + fBound n

/-- C8: for every rule, every existing-rule set, every performance table and
every provability string, the final score returned by score_rule lies in the
closed interval [0, 1] (the code clamps the adjusted weighted sum). -/
theorem score_rule_final_score_in_unit_interval (perf : List (String × Nat × Nat))
    (rule : Rule) (existing_rules : List Rule) (provability : String) :
    0 ≤ (score_rule perf rule existing_rules provability).final_score ∧
    (score_rule perf rule existing_rules provability).final_score ≤ 1 := by
  refine ⟨le_max_left 0 _, max_le zero_le_one (min_le_left 1 _)⟩

/-- C9: a raising condition callable makes is_applicable return -1 (undefined),
and a raising transform callable makes apply return its input expression
unchanged; no exception escapes the invocation boundary. -/
theorem rule_callable_failure_downgraded (r : Rule) (e : SymbolicExpression)
    (cb : ContextBundle) (refs : List Reference) :
    (r.condition e cb refs = .error () → r.is_applicable e cb refs = -1) ∧
    (r.transform e = .error () → (r.apply e).1 = e) := by
  constructor
  · intro h
    simp [Rule.is_applicable, h]
  · intro h
    simp [Rule.apply, h]

/-- Witness for C9 at a rule whose two callables always raise. -/
theorem rule_callable_failure_downgraded_witness :
    failing_rule.is_applicable expr_x bundle_x [] = -1 ∧
    (failing_rule.apply expr_x).1 = expr_x :=
  ⟨(rule_callable_failure_downgraded failing_rule expr_x bundle_x []).1 rfl,
   (rule_callable_failure_downgraded failing_rule expr_x bundle_x []).2 rfl⟩

/-- C6 counterexample: a nonempty existing-rule set with no similar rule gives
support component 2/5 = 0.4, not 0.3 as claimed (0.3 is only the empty-set
answer). -/
theorem support_no_similar_nonempty_not_0_3 :
    are_similar r_alpha r_beta = false ∧
    score_support r_alpha [r_beta] ≠ 3/10 := by
  constructor
  · decide
  · have h : score_support r_alpha [r_beta] = 2/5 := rfl
    rw [h]
    norm_num

/-- C6 amended: the support component computed inside score_rule equals 0.4
for every rule and nonempty existing set in which no rule is similar to the
candidate (0.3 is returned only when the existing set is empty). -/
theorem support_no_similar_nonempty_is_0_4 (rule : Rule) (rules : List Rule)
    (hne : rules ≠ []) (hns : ∀ r ∈ rules, are_similar rule r = false) :
    score_support rule rules = 2/5 := by
  cases rules with
  | nil => exact absurd rfl hne
  | cons r rest =>
    have hfilter : (r :: rest).filter (fun x => are_similar rule x) = [] :=
      List.filter_eq_nil_iff.mpr (fun a ha => by simp [hns a ha])
    simp only [score_support, hfilter, List.isEmpty_nil, if_true]

/-- Witness for the amended C6 support value at a concrete dissimilar pair. -/
theorem support_no_similar_nonempty_is_0_4_witness :
    score_support r_alpha [r_beta] = 2/5 :=
  support_no_similar_nonempty_is_0_4 r_alpha [r_beta] (by simp)
    (by intro r hr; simp only [List.mem_singleton] at hr; subst hr; decide)

/-- C7 counterexample: with the first rule's id containing "general" and the
second's containing "specific" (the reversed order), and neither earlier check
firing, detect returns NONE instead of the claimed SPECIAL_GENERAL. -/
theorem special_general_reversed_order_not_detected :
    strContains (strLower r_spec.id) "specific" = true ∧
    strContains (strLower r_gen.id) "general" = true ∧
    (are_inverse_operations r_gen.id r_spec.id && contexts_overlap r_gen.domain r_spec.domain) = false ∧
    (decide (r_gen.domain.similarity r_spec.domain > mkRat 7 10) && have_priority_conflict r_gen r_spec) = false ∧
    (detect r_gen r_spec).type = ConflictType.NONE ∧
    (detect r_gen r_spec).conflict_exists = false := by
  decide

/-- C7 amended: SPECIAL_GENERAL is returned (when neither earlier check fires)
exactly when the FIRST argument's id contains "specific" and the SECOND
argument's id contains "general" — the check is not symmetric. -/
theorem special_general_requires_argument_order (r1 r2 : Rule)
    (h1 : (are_inverse_operations r1.id r2.id && contexts_overlap r1.domain r2.domain) = false)
    (h2 : (decide (r1.domain.similarity r2.domain > mkRat 7 10) && have_priority_conflict r1 r2) = false)
    (h3 : strContains (strLower r1.id) "specific" = true)
    (h4 : strContains (strLower r2.id) "general" = true) :
    detect r1 r2 = { conflict_exists := true, type := .SPECIAL_GENERAL,
                     description := r1.id ++ " may be special case of " ++ r2.id } := by
  simp only [detect, h1, h2, is_special_case, h3, h4, Bool.false_eq_true, if_false,
    Bool.and_self, if_true]

/-- Witness for the amended C7 at a concrete specific/general pair in source order. -/
theorem special_general_requires_argument_order_witness :
    detect r_spec r_gen = { conflict_exists := true, type := ConflictType.SPECIAL_GENERAL,
                            description := "specific_b may be special case of general_a" } := by
  simpa using special_general_requires_argument_order r_spec r_gen
    (by decide) (by decide) (by decide) (by decide)

/-- C5: at the concrete failing input — one positive example whose input and
output are (a + b) * c — the bottom clause scores -2, both refinements score
-1 (so the best score found is at most 0), and learn_clause neither returns a
clause nor none: the modelled sort TypeError escapes after exactly 3 clause
evaluations, where the spec and the function's docstring promise a none
return. -/
theorem learn_clause_raises_on_failing_input :
    learn_clause [exC5] [] [] = (3, Except.error ()) ∧
    (construct_bottom_clause exC5 []).map (fun b => evaluate_clause b [exC5] [] []) = some (-2) ∧
    (construct_bottom_clause exC5 []).map
      (fun b => (refine_clause b).map fun c => evaluate_clause c [exC5] [] []) = some [-1, -1] := by
  refine ⟨rfl, rfl, rfl⟩

/-- Deduplication never lengthens a list. -/
theorem dedupFirstAux_length_le [DecidableEq α] (seen : List α) (l : List α) :
    (dedupFirstAux seen l).length ≤ l.length := by
  induction l generalizing seen with
  | nil => simp [dedupFirstAux]
  | cons x xs ih =>
    simp only [dedupFirstAux]
    split
    · exact (ih seen).trans (Nat.le_succ _)
    · simpa using ih (x :: seen)

/-- Members of a deduplicated list are members of the original. -/
theorem mem_dedupFirstAux [DecidableEq α] {seen : List α} {l : List α} {a : α}
    (h : a ∈ dedupFirstAux seen l) : a ∈ l := by
  induction l generalizing seen with
  | nil => simp [dedupFirstAux] at h
  | cons x xs ih =>
    simp only [dedupFirstAux] at h
    split at h
    · exact List.mem_cons_of_mem x (ih h)
    · rcases List.mem_cons.mp h with rfl | h2
      · exact List.mem_cons_self _ _
      · exact List.mem_cons_of_mem x (ih h2)

/-- Stable descending insertion adds exactly one element. -/
theorem insertDescK_length [LinearOrder κ] (x : κ × α) (l : List (κ × α)) :
    (insertDescK x l).length = l.length + 1 := by
  induction l with
  | nil => rfl
  | cons y ys ih =>
    simp only [insertDescK]
    split
    · simp [ih]
    · simp

/-- Sorting preserves length. -/
theorem sortDescK_length [LinearOrder κ] (l : List (κ × α)) :
    (sortDescK l).length = l.length := by
  have haux : ∀ (l acc : List (κ × α)),
      (l.foldl (fun a x => insertDescK x a) acc).length = acc.length + l.length := by
    intro l
    induction l with
    | nil => simp
    | cons x xs ih =>
      intro acc
      simp only [List.foldl_cons]
      rw [ih (insertDescK x acc), insertDescK_length]
      simp only [List.length_cons]
      omega
  simpa using haux l []

/-- Members of an insertion are the inserted pair or old members. -/
theorem mem_insertDescK [LinearOrder κ] {x y : κ × α} {l : List (κ × α)}
    (h : y ∈ insertDescK x l) : y = x ∨ y ∈ l := by
  induction l with
  | nil => simpa [insertDescK] using h
  | cons z zs ih =>
    simp only [insertDescK] at h
    split at h
    · rcases List.mem_cons.mp h with rfl | h2
      · exact .inr (List.mem_cons_self _ _)
      · rcases ih h2 with h3 | h3
        · exact .inl h3
        · exact .inr (List.mem_cons_of_mem _ h3)
    · rcases List.mem_cons.mp h with rfl | h2
      · exact .inl rfl
      · exact .inr h2

/-- Members of the sorted list are members of the original. -/
theorem mem_sortDescK [LinearOrder κ] {y : κ × α} {l : List (κ × α)}
    (h : y ∈ sortDescK l) : y ∈ l := by
  have haux : ∀ (l acc : List (κ × α)),
      y ∈ l.foldl (fun a x => insertDescK x a) acc → y ∈ acc ∨ y ∈ l := by
    intro l
    induction l with
    | nil => intro acc h2; exact .inl h2
    | cons x xs ih =>
      intro acc h2
      rcases ih (insertDescK x acc) h2 with h3 | h3
      · rcases mem_insertDescK h3 with rfl | h4
        · exact .inr (List.mem_cons_self _ _)
        · exact .inl h4
      · exact .inr (List.mem_cons_of_mem _ h3)
  rcases haux l [] h with h2 | h2
  · simp at h2
  · exact h2

/-- A refinement drops exactly one body literal and keeps the head. -/
theorem mem_refine_clause {c c' : Clause} (h : c' ∈ refine_clause c) :
    c'.head = c.head ∧ c'.body.length + 1 = c.body.length := by
  simp only [refine_clause, List.mem_map, List.mem_range] at h
  obtain ⟨i, hi, rfl⟩ := h
  refine ⟨rfl, ?_⟩
  simp only [List.length_eraseIdx, hi, if_true]
  omega

/-- The compression score only depends on the head and the body length. -/
theorem evaluate_clause_congr {c1 c2 : Clause} (pos neg : List Example) (bg : List Clause)
    (hh : c1.head = c2.head) (hl : c1.body.length = c2.body.length) :
    evaluate_clause c1 pos neg bg = evaluate_clause c2 pos neg bg := by
  simp [evaluate_clause, count_covered, covers_example, hh, hl]

/-- A list of length at least two whose members are all equal has a duplicate. -/
theorem hasDupB_of_all_eq [DecidableEq α] {l : List α} {s : α} (h2 : 2 ≤ l.length)
    (hall : ∀ x ∈ l, x = s) : hasDupB l = true := by
  match l, h2 with
  | a :: b :: t, _ =>
    have ha : a = s := hall a (by simp)
    have hb : b = s := hall b (by simp)
    subst ha
    subst hb
    simp [hasDupB, List.contains_cons]

/-- The search loop performs no evaluation on an empty beam. -/
theorem search_loop_nil (pos neg : List Example) (bg : List Clause) (fuel : Nat)
    (best : Option (Int × Clause)) (expl : Nat) :
    (search_loop pos neg bg fuel [] best expl).1 = 0 := by
  cases fuel <;> simp [search_loop]

/-- Deduplication never lengthens a list (entry-point form). -/
theorem dedupFirst_length_le [DecidableEq α] (l : List α) :
    (dedupFirst l).length ≤ l.length :=
  dedupFirstAux_length_le [] l

/-- Members of the deduplicated list are members of the original (entry-point form). -/
theorem mem_dedupFirst [DecidableEq α] {l : List α} {a : α} (h : a ∈ dedupFirst l) :
    a ∈ l :=
  mem_dedupFirstAux h

/-- For a singleton scored beam, every clause of the next beam is a refinement
of the single clause. -/
theorem mem_next_beam_of_singleton {x : Int × Clause} {c' : Clause}
    (h : c' ∈ next_beam_of [x]) : c' ∈ refine_clause x.2 := by
  have h1 := List.mem_of_mem_filter h
  have h2 := mem_dedupFirst h1
  have hsort : sortDescK [x] = [x] := rfl
  rw [hsort] at h2
  simpa using h2

/-- For a singleton scored beam, the next beam is at most as long as the body
of the single clause. -/
theorem next_beam_of_singleton_length_le (x : Int × Clause) :
    (next_beam_of [x]).length ≤ x.2.body.length := by
  have hsort : sortDescK [x] = [x] := rfl
  have h1 := List.length_filter_le (fun (c : Clause) => decide (c.body.length ≤ 4))
    (dedupFirst (((sortDescK [x]).take 10).flatMap fun p => refine_clause p.2))
  have h2 := dedupFirst_length_le (((sortDescK [x]).take 10).flatMap fun p => refine_clause p.2)
  have h3 : ((((sortDescK [x]).take 10)).flatMap fun p => refine_clause p.2).length
      = x.2.body.length := by
    rw [hsort]
    simp [refine_clause]
  simp only [next_beam_of]
  omega

/-- A score-uniform beam of two or more clauses stops the loop at its sort
(TypeError), so the pass evaluates exactly the beam once. -/
theorem search_loop_evals_multi (pos neg : List Example) (bg : List Clause)
    {n : Nat} {H : Literal} (fuel : Nat) (c1 c2 : Clause) (rest : List Clause)
    (best : Option (Int × Clause)) (expl : Nat)
    (hinv : ∀ c ∈ c1 :: c2 :: rest, c.head = H ∧ c.body.length = n) :
    (search_loop pos neg bg fuel (c1 :: c2 :: rest) best expl).1
      ≤ (c1 :: c2 :: rest).length := by
  cases fuel with
  | zero => simp [search_loop]
  | succ f =>
    simp only [search_loop]
    by_cases hexpl : 1000 ≤ expl
    · rw [if_pos (by simp [hexpl])]
      simp
    · rw [if_neg (by simp [hexpl])]
      have hdup : 2 ≤ (c1 :: c2 :: rest).length ∧
          hasDupB (((c1 :: c2 :: rest).map fun c =>
            (evaluate_clause c pos neg bg, c)).map fun p => p.1) = true := by
        constructor
        · simp only [List.length_cons]
          omega
        · have hmm : (((c1 :: c2 :: rest).map fun c =>
              (evaluate_clause c pos neg bg, c)).map fun p => p.1)
              = (c1 :: c2 :: rest).map fun c => evaluate_clause c pos neg bg := by
            simp [List.map_map]
          rw [hmm]
          refine hasDupB_of_all_eq (s := evaluate_clause c1 pos neg bg) (by simp) ?_
          intro x hx
          obtain ⟨y, hy, rfl⟩ := List.mem_map.mp hx
          exact evaluate_clause_congr pos neg bg
            ((hinv y hy).1.trans (hinv c1 (by simp)).1.symm)
            ((hinv y hy).2.trans (hinv c1 (by simp)).2.symm)
      rw [if_pos hdup]

/-- Core bound for C4: from a beam whose clauses share one head and one body
length n, the search loop performs at most beam-length + fBound n clause
evaluations. -/
theorem search_loop_evals_le (pos neg : List Example) (bg : List Clause) (H : Literal) :
    ∀ (n fuel : Nat) (beam : List Clause) (best : Option (Int × Clause)) (expl : Nat),
      (∀ c ∈ beam, c.head = H ∧ c.body.length = n) →
      (search_loop pos neg bg fuel beam best expl).1 ≤ beam.length + fBound n := by
  intro n
  induction n with
  | zero =>
    intro fuel beam best expl hinv
    match beam with
    | [] => simp [search_loop_nil]
    | [c] =>
      cases fuel with
      | zero => simp [search_loop]
      | succ f =>
        have hc := hinv c (by simp)
        have hnil : next_beam_of [(evaluate_clause c pos neg bg, c)] = [] := by
          have hlen := next_beam_of_singleton_length_le (evaluate_clause c pos neg bg, c)
          have hz : (next_beam_of [(evaluate_clause c pos neg bg, c)]).length = 0 := by
            have h2 := hc.2
            simp only at hlen
            omega
          exact List.length_eq_zero.mp hz
        simp only [search_loop, List.map_cons, List.map_nil]
        by_cases hexpl : 1000 ≤ expl
        · rw [if_pos (by simp [hexpl])]
          simp
        · rw [if_neg (by simp [hexpl])]
          rw [if_neg (by simp)]
          split
          · simp [fBound]
          · rw [hnil]
            simp [search_loop_nil, fBound]
    | c1 :: c2 :: rest =>
      have h := search_loop_evals_multi pos neg bg fuel c1 c2 rest best expl hinv
      omega
  | succ m ih =>
    intro fuel beam best expl hinv
    match beam with
    | [] => simp [search_loop_nil]
    | [c] =>
      cases fuel with
      | zero => simp [search_loop]
      | succ f =>
        have hc := hinv c (by simp)
        simp only [search_loop, List.map_cons, List.map_nil]
        by_cases hexpl : 1000 ≤ expl
        · rw [if_pos (by simp [hexpl])]
          simp
        · rw [if_neg (by simp [hexpl])]
          rw [if_neg (by simp)]
          split
          · simp only [List.length_cons, List.length_nil]
            have : 0 ≤ fBound (m + 1) := Nat.zero_le _
            omega
          · have hnext : ∀ c' ∈ next_beam_of [(evaluate_clause c pos neg bg, c)],
                c'.head = H ∧ c'.body.length = m := by
              intro c' hc'
              obtain ⟨hh, hl⟩ := mem_refine_clause (mem_next_beam_of_singleton hc')
              have h2 := hc.2
              refine ⟨hh.trans hc.1, ?_⟩
              simp only at hl
              omega
            have hrec := ih f (next_beam_of [(evaluate_clause c pos neg bg, c)])
              (fold_best best [(evaluate_clause c pos neg bg, c)])
              (expl + [c].length) hnext
            have hlen := next_beam_of_singleton_length_le (evaluate_clause c pos neg bg, c)
            have hfb : fBound (m + 1) = (m + 1) + fBound m := rfl
            have h2 := hc.2
            simp only at hlen
            simp only [List.length_cons, List.length_nil] at hrec ⊢
            omega
    | c1 :: c2 :: rest =>
      have h := search_loop_evals_multi pos neg bg fuel c1 c2 rest best expl hinv
      omega

/-- The relevance filter keeps at most max_clause_length = 4 literals. -/
theorem filter_relevant_literals_length_le (head : Literal) (body : List Literal) :
    (filter_relevant_literals head body).length ≤ 4 := by
  simp only [filter_relevant_literals, List.length_map]
  exact List.length_take_le _ _

/-- A constructed bottom clause has at most 4 body literals. -/
theorem construct_bottom_clause_length_le {ex : Example} {bg : List Clause} {b : Clause}
    (h : construct_bottom_clause ex bg = some b) : b.body.length ≤ 4 := by
  simp only [construct_bottom_clause] at h
  split at h
  · exact absurd h (by simp)
  · simp only [Option.some.injEq] at h
    subst h
    simp only
    split
    · exact filter_relevant_literals_length_le _ _
    · rename_i hle
      omega

/-- Numeric closure of the bound for body lengths up to 4. -/
theorem fBound_le_eleven {n : Nat} (h : n ≤ 4) : fBound n ≤ 11 := by
  interval_cases n <;> decide

/-- C4: one learn_clause call with the configured bounds (max_search_nodes =
1000, max_clause_length = 4, beam_width = 10) performs at most 1000 increments
of the clauses_evaluated counter, for every example and background list. -/
theorem learn_clause_evaluations_bounded (pos neg : List Example) (bg : List Clause) :
    (learn_clause pos neg bg).1 ≤ 1000 := by
  cases pos with
  | nil => simp [learn_clause]
  | cons seed rest =>
    cases hb : construct_bottom_clause seed bg with
    | none => simp [learn_clause, hb]
    | some bottom =>
      have hinv : ∀ c ∈ [bottom], c.head = bottom.head ∧ c.body.length = bottom.body.length := by
        intro c hc
        simp only [List.mem_singleton] at hc
        subst hc
        exact ⟨rfl, rfl⟩
      have hbound := search_loop_evals_le (seed :: rest) neg bg bottom.head bottom.body.length
        1001 [bottom] none 0 hinv
      have hfb := fBound_le_eleven (construct_bottom_clause_length_le hb)
      simp only [learn_clause, hb, search_hypothesis_space]
      simp only [List.length_cons, List.length_nil] at hbound
      omega

/-- The contradiction resolver never changes the candidate's id. -/
theorem resolve_candidate_id (cand : Rule) : ∀ rules : List Rule,
    (resolve_contradictions cand rules).2.1.id = cand.id := by
  intro rules
  induction rules with
  | nil => rfl
  | cons r rest ih =>
    simp only [resolve_contradictions]
    cases hex : (detect cand r).conflict_exists with
    | false =>
      rw [if_pos (by simp [hex])]
      simpa using ih
    | true =>
      rw [if_neg (by simp [hex])]
      cases htype : (detect cand r).type with
      | DIRECT_NEGATION =>
        simp only [htype]
        by_cases hconf : cand.confidence > r.confidence
        · rw [if_pos hconf]
        · rw [if_neg hconf]
      | CONTEXT_OVERLAP =>
        simp only [htype]
      | SPECIAL_GENERAL =>
        simp only [htype]
        simpa using ih
      | NONE =>
        simp only [htype]
        simpa using ih

/-- The rule list returned by the resolver is a subsequence of the input: at
most the one replaced rule is dropped, and nothing is added. -/
theorem resolve_sublist (cand : Rule) : ∀ rules : List Rule,
    (resolve_contradictions cand rules).2.2.Sublist rules := by
  intro rules
  induction rules with
  | nil => simp [resolve_contradictions]
  | cons r rest ih =>
    simp only [resolve_contradictions]
    cases hex : (detect cand r).conflict_exists with
    | false =>
      rw [if_pos (by simp [hex])]
      exact List.Sublist.cons₂ r ih
    | true =>
      rw [if_neg (by simp [hex])]
      cases htype : (detect cand r).type with
      | DIRECT_NEGATION =>
        simp only [htype]
        by_cases hconf : cand.confidence > r.confidence
        · rw [if_pos hconf]
          exact List.sublist_cons_self r rest
        · rw [if_neg hconf]
      | CONTEXT_OVERLAP =>
        simp only [htype]
        exact List.Sublist.refl _
      | SPECIAL_GENERAL =>
        simp only [htype]
        exact List.Sublist.cons₂ r ih
      | NONE =>
        simp only [htype]
        exact List.Sublist.cons₂ r ih

/-- Step equation: a non-conflicting head rule is kept and the walk continues. -/
theorem resolve_step_skip (cand r : Rule) (rest : List Rule)
    (hex : (detect cand r).conflict_exists = false) :
    resolve_contradictions cand (r :: rest)
      = ((resolve_contradictions cand rest).1, (resolve_contradictions cand rest).2.1,
         r :: (resolve_contradictions cand rest).2.2) := by
  simp only [resolve_contradictions]
  rw [if_pos (by simp [hex])]

/-- Step equation: a SPECIAL_GENERAL (or degenerate NONE-with-flag) conflict is
only logged and the walk continues. -/
theorem resolve_step_logged (cand r : Rule) (rest : List Rule)
    (hex : (detect cand r).conflict_exists = true)
    (htype : (detect cand r).type = ConflictType.SPECIAL_GENERAL ∨
             (detect cand r).type = ConflictType.NONE) :
    resolve_contradictions cand (r :: rest)
      = ((resolve_contradictions cand rest).1, (resolve_contradictions cand rest).2.1,
         r :: (resolve_contradictions cand rest).2.2) := by
  simp only [resolve_contradictions]
  rw [if_neg (by simp [hex])]
  rcases htype with h | h <;> simp only [h]

/-- Step equation: a DIRECT_NEGATION conflict with a strictly more confident
candidate replaces the existing rule in place and stops the walk. -/
theorem resolve_step_replace (cand r : Rule) (rest : List Rule)
    (hex : (detect cand r).conflict_exists = true)
    (htype : (detect cand r).type = ConflictType.DIRECT_NEGATION)
    (hconf : cand.confidence > r.confidence) :
    resolve_contradictions cand (r :: rest) = (.replaced r.id, cand, rest) := by
  simp only [resolve_contradictions]
  rw [if_neg (by simp [hex])]
  simp only [htype]
  rw [if_pos hconf]

/-- Step equation: a DIRECT_NEGATION conflict without higher candidate
confidence rejects and stops the walk, leaving the list intact. -/
theorem resolve_step_reject (cand r : Rule) (rest : List Rule)
    (hex : (detect cand r).conflict_exists = true)
    (htype : (detect cand r).type = ConflictType.DIRECT_NEGATION)
    (hconf : ¬(cand.confidence > r.confidence)) :
    resolve_contradictions cand (r :: rest)
      = (.reject ("contradicts " ++ r.id), cand, r :: rest) := by
  simp only [resolve_contradictions]
  rw [if_neg (by simp [hex])]
  simp only [htype]
  rw [if_neg hconf]

/-- Step equation: a CONTEXT_OVERLAP conflict narrows the candidate's domain
and stops the walk, leaving the list intact. -/
theorem resolve_step_context (cand r : Rule) (rest : List Rule)
    (hex : (detect cand r).conflict_exists = true)
    (htype : (detect cand r).type = ConflictType.CONTEXT_OVERLAP) :
    resolve_contradictions cand (r :: rest)
      = (.contextualized,
         { cand with domain :=
            { domain := cand.domain.domain,
              subdomain := some ("restricted_" ++ strTake cand.id 10),
              features :=
                if cand.domain.features.contains "restricted" then cand.domain.features
                else cand.domain.features ++ ["restricted"] } },
         r :: rest) := by
  simp only [resolve_contradictions]
  rw [if_neg (by simp [hex])]
  simp only [htype]

/-- When the resolver does not report a replacement, the rule list comes back
exactly as it was. -/
theorem resolve_rules_eq_of_ne_replaced (cand : Rule) : ∀ rules : List Rule,
    (∀ rid, (resolve_contradictions cand rules).1 ≠ .replaced rid) →
    (resolve_contradictions cand rules).2.2 = rules := by
  intro rules
  induction rules with
  | nil => intro _; rfl
  | cons r rest ih =>
    intro hne
    cases hex : (detect cand r).conflict_exists with
    | false =>
      rw [resolve_step_skip cand r rest hex] at hne ⊢
      have h2 := ih (fun rid => by simpa using hne rid)
      simp [h2]
    | true =>
      cases htype : (detect cand r).type with
      | DIRECT_NEGATION =>
        by_cases hconf : cand.confidence > r.confidence
        · rw [resolve_step_replace cand r rest hex htype hconf] at hne
          exact absurd rfl (hne r.id)
        · rw [resolve_step_reject cand r rest hex htype hconf]
      | CONTEXT_OVERLAP =>
        rw [resolve_step_context cand r rest hex htype]
      | SPECIAL_GENERAL =>
        rw [resolve_step_logged cand r rest hex (Or.inl htype)] at hne ⊢
        have h2 := ih (fun rid => by simpa using hne rid)
        simp [h2]
      | NONE =>
        rw [resolve_step_logged cand r rest hex (Or.inr htype)] at hne ⊢
        have h2 := ih (fun rid => by simpa using hne rid)
        simp [h2]

/-- A replacement report shortens the rule list by exactly one. -/
theorem resolve_replaced_length (cand : Rule) : ∀ (rules : List Rule) (rid : String),
    (resolve_contradictions cand rules).1 = .replaced rid →
    (resolve_contradictions cand rules).2.2.length + 1 = rules.length := by
  intro rules
  induction rules with
  | nil => intro rid h; simp [resolve_contradictions] at h
  | cons r rest ih =>
    intro rid h
    cases hex : (detect cand r).conflict_exists with
    | false =>
      rw [resolve_step_skip cand r rest hex] at h ⊢
      have h2 := ih rid (by simpa using h)
      simp only [List.length_cons]
      omega
    | true =>
      cases htype : (detect cand r).type with
      | DIRECT_NEGATION =>
        by_cases hconf : cand.confidence > r.confidence
        · rw [resolve_step_replace cand r rest hex htype hconf]
          simp
        · rw [resolve_step_reject cand r rest hex htype hconf] at h
          simp at h
      | CONTEXT_OVERLAP =>
        rw [resolve_step_context cand r rest hex htype] at h
        simp at h
      | SPECIAL_GENERAL =>
        rw [resolve_step_logged cand r rest hex (Or.inl htype)] at h ⊢
        have h2 := ih rid (by simpa using h)
        simp only [List.length_cons]
        omega
      | NONE =>
        rw [resolve_step_logged cand r rest hex (Or.inr htype)] at h ⊢
        have h2 := ih rid (by simpa using h)
        simp only [List.length_cons]
        omega

/-- A contextualization report narrows the candidate's domain to the
restricted subdomain tagged with the first ten characters of its id. -/
theorem resolve_contextualized_spec (cand : Rule) : ∀ rules : List Rule,
    (resolve_contradictions cand rules).1 = .contextualized →
    (resolve_contradictions cand rules).2.1.domain.domain = cand.domain.domain ∧
    (resolve_contradictions cand rules).2.1.domain.subdomain
      = some ("restricted_" ++ strTake cand.id 10) := by
  intro rules
  induction rules with
  | nil => intro h; simp [resolve_contradictions] at h
  | cons r rest ih =>
    intro h
    cases hex : (detect cand r).conflict_exists with
    | false =>
      rw [resolve_step_skip cand r rest hex] at h ⊢
      have h2 := ih (by simpa using h)
      simpa using h2
    | true =>
      cases htype : (detect cand r).type with
      | DIRECT_NEGATION =>
        by_cases hconf : cand.confidence > r.confidence
        · rw [resolve_step_replace cand r rest hex htype hconf] at h
          simp at h
        · rw [resolve_step_reject cand r rest hex htype hconf] at h
          simp at h
      | CONTEXT_OVERLAP =>
        rw [resolve_step_context cand r rest hex htype]
        simp
      | SPECIAL_GENERAL =>
        rw [resolve_step_logged cand r rest hex (Or.inl htype)] at h ⊢
        have h2 := ih (by simpa using h)
        simpa using h2
      | NONE =>
        rw [resolve_step_logged cand r rest hex (Or.inr htype)] at h ⊢
        have h2 := ih (by simpa using h)
        simpa using h2

/-- A contradiction-phase rejection returns the resolution record itself
(status "reject") and leaves the global rule set untouched. -/
theorem process_reject_case (st : EngineState) (cand : Rule) (reason : String)
    (h : (resolve_contradictions cand st.R_global).1 = .reject reason) :
    (process_candidate_rule st cand).1.status = "reject" ∧
    (process_candidate_rule st cand).2.R_global = st.R_global := by
  have hrules := resolve_rules_eq_of_ne_replaced cand st.R_global (by simp [h])
  simp only [process_candidate_rule]
  rw [show (resolve_contradictions cand st.R_global).1 = ResolveStatus.reject reason from h]
  exact ⟨rfl, hrules⟩

/-- A provability-phase rejection (status "rejected") keeps whatever rule list
the contradiction phase left behind — including a removal already performed by
a replacement. -/
theorem process_unprovable_case (st : EngineState) (cand : Rule)
    (h1 : ∀ reason, (resolve_contradictions cand st.R_global).1 ≠ .reject reason)
    (h2 : analyze (resolve_contradictions cand st.R_global).2.1
            (resolve_contradictions cand st.R_global).2.2 = "unprovable") :
    (process_candidate_rule st cand).1.status = "rejected" ∧
    (process_candidate_rule st cand).2.R_global
      = (resolve_contradictions cand st.R_global).2.2 := by
  simp only [process_candidate_rule]
  cases hres : (resolve_contradictions cand st.R_global).1 with
  | reject reason => exact absurd hres (h1 reason)
  | replaced rid =>
    simp only [if_pos h2]
    constructor <;> trivial
  | contextualized =>
    simp only [if_pos h2]
    constructor <;> trivial
  | no_conflict =>
    simp only [if_pos h2]
    constructor <;> trivial

/-- A run that survives both phases commits: status "accepted" and the
candidate — with re-scored confidence and overwritten source — appended to
whatever rule list the contradiction phase left behind. -/
theorem process_accept_case (st : EngineState) (cand : Rule)
    (h1 : ∀ reason, (resolve_contradictions cand st.R_global).1 ≠ .reject reason)
    (h2 : analyze (resolve_contradictions cand st.R_global).2.1
            (resolve_contradictions cand st.R_global).2.2 ≠ "unprovable") :
    (process_candidate_rule st cand).1.status = "accepted" ∧
    (process_candidate_rule st cand).2.R_global
      = (resolve_contradictions cand st.R_global).2.2 ++
        [{ (resolve_contradictions cand st.R_global).2.1 with
           confidence := (score_rule st.rule_performance
             (resolve_contradictions cand st.R_global).2.1
             (resolve_contradictions cand st.R_global).2.2
             (analyze (resolve_contradictions cand st.R_global).2.1
               (resolve_contradictions cand st.R_global).2.2)).final_score,
           source := if analyze (resolve_contradictions cand st.R_global).2.1
               (resolve_contradictions cand st.R_global).2.2 = "provable"
             then "derived" else "empirical" }] := by
  simp only [process_candidate_rule]
  cases hres : (resolve_contradictions cand st.R_global).1 with
  | reject reason => exact absurd hres (h1 reason)
  | replaced rid =>
    simp only [if_neg h2]
    constructor <;> trivial
  | contextualized =>
    simp only [if_neg h2]
    constructor <;> trivial
  | no_conflict =>
    simp only [if_neg h2]
    constructor <;> trivial

/-- C1 counterexample: with two subtract rules in the set, processing the
add-candidate resolves the first conflict by replacement, but the call then
rejects as unprovable against the second subtract rule — the removal stands
without the append and the global rule set shrinks from 2 rules to 1. -/
theorem direct_negation_replacement_not_atomic :
    (resolve_contradictions cand_add engine_state_two_subtract.R_global).1
      = ResolveStatus.replaced "r_subtract_a" ∧
    engine_state_two_subtract.R_global.length = 2 ∧
    (process_candidate_rule engine_state_two_subtract cand_add).2.R_global.length = 1 := by
  have hres_eq : resolve_contradictions cand_add [rsub_a, rsub_b]
      = (.replaced rsub_a.id, cand_add, [rsub_b]) :=
    resolve_step_replace cand_add rsub_a [rsub_b] (by decide) (by decide)
      (by norm_num [cand_add, rsub_a])
  have hR : engine_state_two_subtract.R_global = [rsub_a, rsub_b] := rfl
  have h1 : ∀ reason,
      (resolve_contradictions cand_add engine_state_two_subtract.R_global).1
        ≠ ResolveStatus.reject reason := by
    intro reason
    rw [hR, hres_eq]
    simp
  have h2 : analyze (resolve_contradictions cand_add engine_state_two_subtract.R_global).2.1
      (resolve_contradictions cand_add engine_state_two_subtract.R_global).2.2
      = "unprovable" := by
    rw [hR, hres_eq]
    decide
  have hstate := (process_unprovable_case engine_state_two_subtract cand_add h1 h2).2
  refine ⟨?_, rfl, ?_⟩
  · rw [hR, hres_eq]
    rfl
  · rw [hstate, hR, hres_eq]
    rfl

/-- C1 amended: a call that resolves a DIRECT_NEGATION by replacement and does
not subsequently return the provability rejection keeps the global rule-set
size unchanged: the shortened list gets exactly the candidate appended. -/
theorem replacement_preserves_size_unless_rejected (st : EngineState) (cand : Rule)
    (rid : String)
    (hrep : (resolve_contradictions cand st.R_global).1 = .replaced rid)
    (hnr : (process_candidate_rule st cand).1.status ≠ "rejected") :
    (process_candidate_rule st cand).2.R_global.length = st.R_global.length ∧
    ∃ c2, (process_candidate_rule st cand).2.R_global
        = (resolve_contradictions cand st.R_global).2.2 ++ [c2] ∧
      c2.id = cand.id ∧
      (resolve_contradictions cand st.R_global).2.2.Sublist st.R_global ∧
      (resolve_contradictions cand st.R_global).2.2.length + 1 = st.R_global.length := by
  have h1 : ∀ reason,
      (resolve_contradictions cand st.R_global).1 ≠ ResolveStatus.reject reason := by
    intro reason
    simp [hrep]
  have hlen := resolve_replaced_length cand st.R_global rid hrep
  by_cases h2 : analyze (resolve_contradictions cand st.R_global).2.1
      (resolve_contradictions cand st.R_global).2.2 = "unprovable"
  · exact absurd (process_unprovable_case st cand h1 h2).1 hnr
  · have hc := process_accept_case st cand h1 h2
    constructor
    · rw [hc.2]
      simp only [List.length_append, List.length_cons, List.length_nil]
      omega
    · refine ⟨_, hc.2, ?_, resolve_sublist cand st.R_global, hlen⟩
      exact resolve_candidate_id cand st.R_global

/-- Witness for the amended C1: with one subtract rule, the add-candidate
replaces it, survives provability, and the set size is preserved. -/
theorem replacement_preserves_size_unless_rejected_witness :
    (resolve_contradictions cand_add engine_state_one_subtract.R_global).1
      = ResolveStatus.replaced "r_subtract_a" ∧
    (process_candidate_rule engine_state_one_subtract cand_add).1.status ≠ "rejected" ∧
    (process_candidate_rule engine_state_one_subtract cand_add).2.R_global.length
      = engine_state_one_subtract.R_global.length := by
  have hres_eq : resolve_contradictions cand_add [rsub_a]
      = (.replaced rsub_a.id, cand_add, []) :=
    resolve_step_replace cand_add rsub_a [] (by decide) (by decide)
      (by norm_num [cand_add, rsub_a])
  have hR : engine_state_one_subtract.R_global = [rsub_a] := rfl
  have hrep : (resolve_contradictions cand_add engine_state_one_subtract.R_global).1
      = ResolveStatus.replaced "r_subtract_a" := by
    rw [hR, hres_eq]
    rfl
  have h1 : ∀ reason,
      (resolve_contradictions cand_add engine_state_one_subtract.R_global).1
        ≠ ResolveStatus.reject reason := by
    intro reason
    simp [hrep]
  have h2 : analyze (resolve_contradictions cand_add engine_state_one_subtract.R_global).2.1
      (resolve_contradictions cand_add engine_state_one_subtract.R_global).2.2
      ≠ "unprovable" := by
    rw [hR, hres_eq]
    decide
  have hnr : (process_candidate_rule engine_state_one_subtract cand_add).1.status
      ≠ "rejected" := by
    rw [(process_accept_case engine_state_one_subtract cand_add h1 h2).1]
    decide
  exact ⟨hrep, hnr,
    (replacement_preserves_size_unless_rejected engine_state_one_subtract cand_add
      "r_subtract_a" hrep hnr).1⟩

/-- C2 counterexample: the same two-subtract run returns a rejected status
("rejected", unprovable) yet the global rule set after the call differs from
the one before — the replaced rule r_subtract_a is gone. -/
theorem rejected_run_can_remove_a_rule :
    (process_candidate_rule engine_state_two_subtract cand_add).1.status = "rejected" ∧
    (process_candidate_rule engine_state_two_subtract cand_add).2.R_global
      ≠ engine_state_two_subtract.R_global := by
  have hres_eq : resolve_contradictions cand_add [rsub_a, rsub_b]
      = (.replaced rsub_a.id, cand_add, [rsub_b]) :=
    resolve_step_replace cand_add rsub_a [rsub_b] (by decide) (by decide)
      (by norm_num [cand_add, rsub_a])
  have hR : engine_state_two_subtract.R_global = [rsub_a, rsub_b] := rfl
  have h1 : ∀ reason,
      (resolve_contradictions cand_add engine_state_two_subtract.R_global).1
        ≠ ResolveStatus.reject reason := by
    intro reason
    rw [hR, hres_eq]
    simp
  have h2 : analyze (resolve_contradictions cand_add engine_state_two_subtract.R_global).2.1
      (resolve_contradictions cand_add engine_state_two_subtract.R_global).2.2
      = "unprovable" := by
    rw [hR, hres_eq]
    decide
  have hc := process_unprovable_case engine_state_two_subtract cand_add h1 h2
  refine ⟨hc.1, ?_⟩
  intro habs
  rw [hc.2, hR, hres_eq] at habs
  have hlen := congrArg List.length habs
  simp at hlen

/-- C2 amended: a rejected candidate is never appended — the post-call rule
set is a subsequence of the pre-call one, and it is exactly unchanged for a
contradiction-phase rejection; a provability-phase rejection may additionally
lack the one rule a same-call direct-negation replacement removed. -/
theorem rejection_never_appends (st : EngineState) (cand : Rule)
    (hrej : (process_candidate_rule st cand).1.status = "reject" ∨
            (process_candidate_rule st cand).1.status = "rejected") :
    (process_candidate_rule st cand).2.R_global.Sublist st.R_global ∧
    ((process_candidate_rule st cand).1.status = "reject" →
      (process_candidate_rule st cand).2.R_global = st.R_global) := by
  by_cases hr : ∃ reason,
      (resolve_contradictions cand st.R_global).1 = ResolveStatus.reject reason
  · obtain ⟨reason, hres⟩ := hr
    have hc := process_reject_case st cand reason hres
    rw [hc.2]
    exact ⟨List.Sublist.refl _, fun _ => rfl⟩
  · push_neg at hr
    by_cases h2 : analyze (resolve_contradictions cand st.R_global).2.1
        (resolve_contradictions cand st.R_global).2.2 = "unprovable"
    · have hc := process_unprovable_case st cand hr h2
      rw [hc.2]
      refine ⟨resolve_sublist cand st.R_global, ?_⟩
      intro habs
      have hcontra := hc.1.symm.trans habs
      exact absurd hcontra (by decide)
    · have hc := process_accept_case st cand hr h2
      rw [hc.1] at hrej
      simp at hrej

/-- Witness for the amended C2 at a concrete contradiction-phase rejection. -/
theorem rejection_never_appends_witness :
    (process_candidate_rule engine_state_one_subtract cand_add_low).1.status = "reject" ∧
    (process_candidate_rule engine_state_one_subtract cand_add_low).2.R_global.Sublist
      engine_state_one_subtract.R_global ∧
    (process_candidate_rule engine_state_one_subtract cand_add_low).2.R_global
      = engine_state_one_subtract.R_global := by
  have hres : (resolve_contradictions cand_add_low engine_state_one_subtract.R_global).1
      = ResolveStatus.reject ("contradicts " ++ rsub_a.id) := by
    rw [show engine_state_one_subtract.R_global = [rsub_a] from rfl,
      resolve_step_reject cand_add_low rsub_a [] (by decide) (by decide)
        (by norm_num [cand_add_low, rsub_a])]
  have hst := process_reject_case engine_state_one_subtract cand_add_low
    ("contradicts " ++ rsub_a.id) hres
  have happ := rejection_never_appends engine_state_one_subtract cand_add_low (Or.inl hst.1)
  exact ⟨hst.1, happ.1, happ.2 hst.1⟩

/-- C3 counterexample: submitting a candidate whose id equals core rule
identity_add (at an unused priority) to the freshly initialised engine is
accepted — no phase checks id uniqueness — and the global rule set then holds
two rules with id "identity_add". -/
theorem accepted_duplicate_id_counterexample :
    (process_candidate_rule initial_engine_state cand_dup).1.status = "accepted" ∧
    ¬ ((process_candidate_rule initial_engine_state cand_dup).2.R_global.map Rule.id).Nodup := by
  constructor
  · decide
  · decide

/-- C3 amended: starting from pairwise distinct ids, an accepted call keeps
the ids pairwise distinct provided the candidate's id is fresh — i.e. differs
from every id already in the global rule set. -/
theorem accept_preserves_distinct_ids (st : EngineState) (cand : Rule)
    (hnodup : (st.R_global.map Rule.id).Nodup)
    (hfresh : cand.id ∉ st.R_global.map Rule.id)
    (hacc : (process_candidate_rule st cand).1.status = "accepted") :
    ((process_candidate_rule st cand).2.R_global.map Rule.id).Nodup := by
  by_cases hr : ∃ reason,
      (resolve_contradictions cand st.R_global).1 = ResolveStatus.reject reason
  · obtain ⟨reason, hres⟩ := hr
    have := (process_reject_case st cand reason hres).1.symm.trans hacc
    exact absurd this (by decide)
  · push_neg at hr
    by_cases h2 : analyze (resolve_contradictions cand st.R_global).2.1
        (resolve_contradictions cand st.R_global).2.2 = "unprovable"
    · have := (process_unprovable_case st cand hr h2).1.symm.trans hacc
      exact absurd this (by decide)
    · have hc := process_accept_case st cand hr h2
      rw [hc.2, List.map_append]
      have hsub : ((resolve_contradictions cand st.R_global).2.2.map Rule.id).Sublist
          (st.R_global.map Rule.id) :=
        List.Sublist.map Rule.id (resolve_sublist cand st.R_global)
      have hid : ∀ a ∈ (resolve_contradictions cand st.R_global).2.2.map Rule.id,
          a ∈ st.R_global.map Rule.id := fun a ha => hsub.subset ha
      rw [List.nodup_append]
      refine ⟨hsub.nodup hnodup, ?_, ?_⟩
      · simp
      · intro a ha hb
        simp only [List.map_cons, List.map_nil, List.mem_singleton] at hb
        have hco : a = cand.id := by
          rw [hb]
          exact resolve_candidate_id cand st.R_global
        exact hfresh (hco ▸ hid a ha)

/-- Witness for the amended C3 at a fresh-id candidate over the core rules. -/
theorem accept_preserves_distinct_ids_witness :
    (initial_engine_state.R_global.map Rule.id).Nodup ∧
    cand_fresh.id ∉ initial_engine_state.R_global.map Rule.id ∧
    (process_candidate_rule initial_engine_state cand_fresh).1.status = "accepted" ∧
    ((process_candidate_rule initial_engine_state cand_fresh).2.R_global.map Rule.id).Nodup :=
  ⟨by decide, by decide, by decide,
   accept_preserves_distinct_ids initial_engine_state cand_fresh
     (by decide) (by decide) (by decide)⟩

/-- C10: a candidate whose first conflict is CONTEXT_OVERLAP is contextualized
and then, in the same call, continues through provability and confidence
scoring; unless provability is "unprovable", the call appends the narrowed
candidate to the untouched global rule set and returns status accepted — no
second submission is needed. -/
theorem context_overlap_contextualizes_and_accepts (st : EngineState) (cand : Rule)
    (hctx : (resolve_contradictions cand st.R_global).1 = ResolveStatus.contextualized)
    (hprov : analyze (resolve_contradictions cand st.R_global).2.1 st.R_global
      ≠ "unprovable") :
    (process_candidate_rule st cand).1.status = "accepted" ∧
    ∃ c2, (process_candidate_rule st cand).2.R_global = st.R_global ++ [c2] ∧
      c2.id = cand.id ∧
      c2.domain.domain = cand.domain.domain ∧
      c2.domain.subdomain = some ("restricted_" ++ strTake cand.id 10) ∧
      c2.confidence = (score_rule st.rule_performance
        (resolve_contradictions cand st.R_global).2.1 st.R_global
        (analyze (resolve_contradictions cand st.R_global).2.1 st.R_global)).final_score := by
  have hrules : (resolve_contradictions cand st.R_global).2.2 = st.R_global :=
    resolve_rules_eq_of_ne_replaced cand st.R_global (by simp [hctx])
  have h1 : ∀ reason,
      (resolve_contradictions cand st.R_global).1 ≠ ResolveStatus.reject reason := by
    intro reason
    simp [hctx]
  have h2 : analyze (resolve_contradictions cand st.R_global).2.1
      (resolve_contradictions cand st.R_global).2.2 ≠ "unprovable" := by
    rw [hrules]
    exact hprov
  have hc := process_accept_case st cand h1 h2
  obtain ⟨hdom, hsub⟩ := resolve_contextualized_spec cand st.R_global hctx
  refine ⟨hc.1,
    ⟨{ (resolve_contradictions cand st.R_global).2.1 with
       confidence := (score_rule st.rule_performance
         (resolve_contradictions cand st.R_global).2.1
         (resolve_contradictions cand st.R_global).2.2
         (analyze (resolve_contradictions cand st.R_global).2.1
           (resolve_contradictions cand st.R_global).2.2)).final_score,
       source := if analyze (resolve_contradictions cand st.R_global).2.1
           (resolve_contradictions cand st.R_global).2.2 = "provable"
         then "derived" else "empirical" }, ?_, ?_, ?_, ?_, ?_⟩⟩
  · rw [hc.2, hrules]
  · exact resolve_candidate_id cand st.R_global
  · exact hdom
  · exact hsub
  · exact congrArg (fun l => (score_rule st.rule_performance
      (resolve_contradictions cand st.R_global).2.1 l
      (analyze (resolve_contradictions cand st.R_global).2.1 l)).final_score) hrules

/-- Witness for C10 at a concrete same-priority overlapping pair. -/
theorem context_overlap_contextualizes_and_accepts_witness :
    (resolve_contradictions cand_overlap engine_state_foo.R_global).1
      = ResolveStatus.contextualized ∧
    analyze (resolve_contradictions cand_overlap engine_state_foo.R_global).2.1
      engine_state_foo.R_global ≠ "unprovable" ∧
    (process_candidate_rule engine_state_foo cand_overlap).1.status = "accepted" ∧
    ∃ c2, (process_candidate_rule engine_state_foo cand_overlap).2.R_global
        = engine_state_foo.R_global ++ [c2] ∧
      c2.id = cand_overlap.id ∧
      c2.domain.domain = cand_overlap.domain.domain ∧
      c2.domain.subdomain = some ("restricted_" ++ strTake cand_overlap.id 10) ∧
      c2.confidence = (score_rule engine_state_foo.rule_performance
        (resolve_contradictions cand_overlap engine_state_foo.R_global).2.1
        engine_state_foo.R_global
        (analyze (resolve_contradictions cand_overlap engine_state_foo.R_global).2.1
          engine_state_foo.R_global)).final_score := by
  have hctx : (resolve_contradictions cand_overlap engine_state_foo.R_global).1
      = ResolveStatus.contextualized := by decide
  have hprov : analyze (resolve_contradictions cand_overlap engine_state_foo.R_global).2.1
      engine_state_foo.R_global ≠ "unprovable" := by decide
  have hc := context_overlap_contextualizes_and_accepts engine_state_foo cand_overlap
    hctx hprov
  exact ⟨hctx, hprov, hc.1, hc.2⟩
